import Mathlib


/-!
Verification development for the gm12u320 USB projector driver
(frame-streaming engine, dirty-region tracker, buffer lifecycle manager).

The driver code is shallowly embedded: byte buffers are modelled as
functions from byte index to byte value (a Nat below 256), the USB bulk
transport is an oracle assigning to every transfer a result pair
(status code, transferred length), and the stateful worker loop is a
fuel-bounded recursive function over that oracle.

Source files referenced below:
  gm12u320_fb.c / part_004  (gm12u320_fb_mark_dirty)
  part_007                  (templates, gm12u320_usb_alloc,
                             gm12u320_32bpp_to_24bpp_packed,
                             gm12u320_fb_update_work)
  part_008                  (capture_main_screen distribution loop)
  gm12u320_gem.c            (gem object lifecycle and fault handler)

The number of protocol blocks GM12U320_BLOCK_COUNT and the user
resolution GM12U320_USER_WIDTH x GM12U320_HEIGHT are defined in the
header gm12u320_drv.h, which is not part of the available sources; all
definitions are therefore parametrized by the block count N and, where
needed, by the width W and height H.
-/

/-! ## Protocol constants (part_007 lines 35-53) -/

def DATA_BLOCK_HEADER_SIZE : Nat := 84

def DATA_BLOCK_CONTENT_SIZE : Nat := 64512

def DATA_BLOCK_FOOTER_SIZE : Nat := 20

def DATA_BLOCK_SIZE : Nat :=
  DATA_BLOCK_HEADER_SIZE + DATA_BLOCK_CONTENT_SIZE + DATA_BLOCK_FOOTER_SIZE

def DATA_LAST_BLOCK_CONTENT_SIZE : Nat := 4032

def DATA_LAST_BLOCK_SIZE : Nat :=
  DATA_BLOCK_HEADER_SIZE + DATA_LAST_BLOCK_CONTENT_SIZE + DATA_BLOCK_FOOTER_SIZE

def CMD_SIZE : Nat := 31

def READ_STATUS_SIZE : Nat := 13

/-! ## Byte templates (part_007 lines 64-117) -/

/-- The cmd_data template, part_007 lines 64-69. -/
def cmd_data_bytes : List Nat :=
  [0x55, 0x53, 0x42, 0x43, 0x00, 0x00, 0x00, 0x00,
   0x68, 0xfc, 0x00, 0x00, 0x00, 0x00, 0x10, 0xff,
   0x00, 0x00, 0x00, 0x00, 0xfc, 0x00, 0x80, 0x00,
   0x00, 0x00, 0x00, 0x00, 0x00, 0x00, 0x00]

def cmd_data (k : Nat) : Nat := cmd_data_bytes.getD k 0

/-- The data_block_header template, part_007 lines 85-97: 64 zero bytes
followed by the 20 listed trailer bytes. -/
def data_block_header_bytes : List Nat :=
  List.replicate 64 0 ++
  [0xfb, 0x14, 0x00, 0x00, 0x00, 0x00, 0x00, 0x00,
   0x00, 0x04, 0x15, 0x00, 0x00, 0xfc, 0x00, 0x00,
   0x01, 0x00, 0x00, 0xdb]

def data_block_header (k : Nat) : Nat := data_block_header_bytes.getD k 0

/-- The data_last_block_header template, part_007 lines 99-111. -/
def data_last_block_header_bytes : List Nat :=
  List.replicate 64 0 ++
  [0xfb, 0x14, 0x00, 0x00, 0x00, 0x00, 0x00, 0x00,
   0x2a, 0x00, 0x20, 0x00, 0xc0, 0x0f, 0x00, 0x00,
   0x01, 0x00, 0x00, 0xd7]

def data_last_block_header (k : Nat) : Nat := data_last_block_header_bytes.getD k 0

/-- The data_block_footer template, part_007 lines 113-117. -/
def data_block_footer_bytes : List Nat :=
  [0xfb, 0x14, 0x02, 0x20, 0x00, 0x00, 0x00, 0x00,
   0x00, 0x00, 0x00, 0x00, 0x00, 0x00, 0x00, 0x00,
   0x80, 0x00, 0x00, 0x4f]

def data_block_footer (k : Nat) : Nat := data_block_footer_bytes.getD k 0

/-! ## Byte buffers as functions -/

/-- A store of a single byte into a u8 buffer: the written value is
truncated modulo 256, as a C assignment to `u8` is. -/
def store (buf : Nat → Nat) (i v : Nat) : Nat → Nat :=
  fun k => if k = i then v % 256 else buf k

/-- memcpy(dst + dstOff, src + srcOff, len) on function-modelled buffers. -/
def memcpyRegion (dst : Nat → Nat) (dstOff : Nat) (src : Nat → Nat)
    (srcOff len : Nat) : Nat → Nat :=
  fun m => if dstOff ≤ m ∧ m < dstOff + len then src (srcOff + (m - dstOff)) else dst m

/-- Truncation of a C int expression stored into a u8. -/
def byteOfInt (x : Int) : Nat := (x % 256).toNat

/-! ## Block sizes as the worker computes them (part_007 lines 316-320) -/

/-- block_size chosen in the worker loop for block b of N. -/
def blockSize (N b : Nat) : Nat :=
  if b = N - 1 then DATA_LAST_BLOCK_SIZE else DATA_BLOCK_SIZE

/-- The content length of block b: block size minus header and footer. -/
def contentSize (N b : Nat) : Nat :=
  blockSize N b - DATA_BLOCK_HEADER_SIZE - DATA_BLOCK_FOOTER_SIZE

/-! ## The data command built in the worker (part_007 lines 322-327)

memcpy(cmd_buf, cmd_data, CMD_SIZE);
cmd_buf[8]  = block_size & 0xff;
cmd_buf[9]  = block_size >> 8;
cmd_buf[20] = 0xfc - block * 4;
cmd_buf[21] = block | (frame << 7);
-/

def mkDataCmd (bs b : Nat) (frame : Bool) : Nat → Nat :=
  store
    (store
      (store
        (store cmd_data 8 (bs % 256))
        9 (bs >>> 8))
      20 (byteOfInt (0xfc - 4 * (b : Int))))
    21 (b ||| (if frame then 128 else 0))

/-- The bytes of the data command the worker sends before block b. -/
def dataCmdBytes (N : Nat) (frame : Bool) (b : Nat) : Nat → Nat :=
  mkDataCmd (blockSize N b) b frame

/-! ## Block allocation (gm12u320_usb_alloc, part_007 lines 119-157)

Each data_buf[i] is kzalloc-ed (all zero), then the appropriate header
constant is copied to its start and the footer constant to its end.
-/

def allocBlock (last : Bool) : Nat → Nat :=
  let size := if last then DATA_LAST_BLOCK_SIZE else DATA_BLOCK_SIZE
  let hdr := if last then data_last_block_header else data_block_header
  memcpyRegion
    (memcpyRegion (fun _ => 0) 0 hdr 0 DATA_BLOCK_HEADER_SIZE)
    (size - DATA_BLOCK_FOOTER_SIZE) data_block_footer 0 DATA_BLOCK_FOOTER_SIZE

/-- The initial contents of the N data_buf blocks. -/
def gm12u320_usb_alloc (N : Nat) : Nat → Nat → Nat :=
  fun i => if i = N - 1 then allocBlock true else allocBlock false

/-! ## Transport model

Every usb_bulk_msg call in the worker returns a pair (ret, len); the
oracle T assigns such a pair to every transfer, indexed by the number of
transfers performed so far.  A transfer step succeeds exactly when
ret == 0 and len equals the expected length, mirroring the checks
`if (ret || len != expected) goto err` in gm12u320_fb_update_work.
-/

/-- The transfers a worker cycle performs, in order
(part_007 lines 316-367): for each block, the data command, the data
block itself and a status read; then the draw command and its status
read. -/
inductive Msg where
  | dataCmd (b : Nat)
  | dataBlock (b : Nat)
  | blockStatus (b : Nat)
  | drawCmd
  | drawStatus
deriving DecidableEq, Repr

/-- Expected transfer length of each step, as checked by the worker. -/
def expectedLen (N : Nat) : Msg → Nat
  | .dataCmd _ => CMD_SIZE
  | .dataBlock b => blockSize N b
  | .blockStatus _ => READ_STATUS_SIZE
  | .drawCmd => CMD_SIZE
  | .drawStatus => READ_STATUS_SIZE

/-- Success test of one transfer: negation of
`if (ret || len != expected) goto err`. -/
def resOk (N : Nat) (r : Int × Nat) (m : Msg) : Bool :=
  r.1 == 0 && r.2 == expectedLen N m

/-- The three per-block transfers of the block loop. -/
def blockMsgs (N : Nat) : List Msg :=
  (List.range N).bind fun b => [.dataCmd b, .dataBlock b, .blockStatus b]

/-- All transfers of one worker cycle, in program order. -/
def cycleMsgs (N : Nat) : List Msg :=
  blockMsgs N ++ [.drawCmd, .drawStatus]

/-- Performs a sequence of transfers against the oracle T starting at
transfer counter c.  Aborts at the first failing transfer (`goto err`).
Returns the attempted transfers (the failing one included), the overall
success flag, and the next counter value. -/
def sendAll (N : Nat) (T : Nat → Int × Nat) : List Msg → Nat → List Msg × Bool × Nat
  | [], c => ([], true, c)
  | m :: ms, c =>
    if resOk N (T c) m then
      let r := sendAll N T ms (c + 1)
      (m :: r.1, r.2.1, r.2.2)
    else
      ([m], false, c + 1)

/-- One pass of the transfer portion of gm12u320_fb_update_work. -/
def runCycle (N : Nat) (T : Nat → Int × Nat) (c : Nat) : List Msg × Bool × Nat :=
  sendAll N T (cycleMsgs N) c

/-- Result of one worker cycle, with the parity update `frame = !frame`
that the worker performs only when every transfer succeeded (a failure
jumps to err, skipping it). -/
structure CycleOut where
  trace : List Msg
  ok : Bool
  cnt : Nat
  parity : Bool
deriving Repr, DecidableEq

def cycleStep (N : Nat) (T : Nat → Int × Nat) (c : Nat) (p : Bool) : CycleOut :=
  let r := runCycle N T c
  { trace := r.1, ok := r.2.1, cnt := r.2.2, parity := if r.2.1 then !p else p }

/-- One entry of the worker run record: the transfers attempted by one
cycle and whether the cycle completed. -/
structure CEntry where
  trace : List Msg
  ok : Bool
deriving Repr, DecidableEq

/-- Fuel-bounded model of the while loop of gm12u320_fb_update_work
(part_007 lines 284-387).  rf gives the value of fb_update.run read at
the top of each iteration (it may be cleared concurrently by
gm12u320_stop_fb_update); k counts iterations, c transfers, p is the
local variable `frame`.  A cycle failure takes `goto err`: the function
returns, executing no further cycle.  Returns the per-cycle record and
the final parity. -/
def workerLoop (N : Nat) (T : Nat → Int × Nat) (rf : Nat → Bool) :
    Nat → Nat → Nat → Bool → List CEntry × Bool
  | 0, _, _, p => ([], p)
  | fuel + 1, k, c, p =>
    if rf k then
      let r := cycleStep N T c p
      if r.ok then
        let rest := workerLoop N T rf fuel (k + 1) r.cnt r.parity
        ({ trace := r.trace, ok := true } :: rest.1, rest.2)
      else
        ([{ trace := r.trace, ok := false }], r.parity)
    else
      ([], p)

/-- Length of a cycle in transfers. -/
def cycleLen (N : Nat) : Nat := (cycleMsgs N).length

/-- A transport oracle that always succeeds with the correct length for
every step of every cycle (counters advance by cycleLen N per cycle). -/
def goodT (N : Nat) : Nat → Int × Nat :=
  fun i => (0, expectedLen N ((cycleMsgs N).getD (i % cycleLen N) .drawCmd))

/-! ## DirtyRegionTracker (gm12u320_fb_mark_dirty, part_004 lines 31-62)

The pending-update slot of struct gm12u320_device: fb (NULL modelled as
none), and the four coordinates.  The worker clears only fb when it
takes the update; the coordinates keep their last values, exactly as in
the C struct.
-/

structure Region where
  x1 : Int
  x2 : Int
  y1 : Int
  y2 : Int
deriving DecidableEq, Repr

structure PendState where
  fb : Option Nat
  region : Region
deriving DecidableEq, Repr

/-- Component-wise merge used in the else branch of mark_dirty. -/
def bbox (old new : Region) : Region :=
  { x1 := min old.x1 new.x1
    x2 := max old.x2 new.x2
    y1 := min old.y1 new.y1
    y2 := max old.y2 new.y2 }

/-- gm12u320_fb_mark_dirty.  The second component of the result records
whether wake_up was called on fb_update.waitq: the local flag `wakeup`
is initialized to false and never assigned afterwards, so the final
`if (wakeup) wake_up(...)` never fires. -/
def gm12u320_fb_mark_dirty (st : PendState) (fb : Nat) (r : Region) :
    PendState × Bool :=
  let wakeup := false
  let st2 :=
    if st.fb ≠ some fb then
      { fb := some fb, region := r }
    else
      { st with region := bbox st.region r }
  (st2, wakeup)

/-- The take-and-clear at the top of each worker cycle
(part_007 lines 287-294): read fb and the coordinates under the lock,
then set fb_update.fb = NULL.  The coordinates are left in place. -/
def takePending (st : PendState) : (Option Nat × Region) × PendState :=
  ((st.fb, st.region), { st with fb := none })

/-! ## Pixel packing (gm12u320_32bpp_to_24bpp_packed, part_007 lines 225-233)

Copies len pixels, three bytes each, skipping the fourth source byte of
every pixel. -/

def gm12u320_32bpp_to_24bpp_packed : List Nat → Nat → List Nat
  | _, 0 => []
  | a :: b :: c :: _ :: rest, len + 1 =>
    a :: b :: c :: gm12u320_32bpp_to_24bpp_packed rest len
  | _, _ + 1 => []

/-! ## The test-pattern fill (part_007 lines 302-314)

When no framebuffer is pending the worker overwrites the content region
of every block with an alternating two-colour pattern that depends on
the current value of `frame`:

  for (j = HEADER; j < block_size - FOOTER; j += 3) {
    buf[j]   = frame ? 0xFF : 0x00;
    buf[j+1] = frame ? 0x00 : 0xFF;
    buf[j+2] = frame ? 0x00 : 0x00;
  }
-/

/-- One iteration of the inner loop writes the triple at j. -/
def store3 (frame : Bool) (buf : Nat → Nat) (j : Nat) : Nat → Nat :=
  store
    (store
      (store buf j (if frame then 0xFF else 0x00))
      (j + 1) (if frame then 0x00 else 0xFF))
    (j + 2) 0x00

/-- The inner loop, by the number k of remaining iterations, starting at
byte offset j. -/
def fillTriples (frame : Bool) (buf : Nat → Nat) : Nat → Nat → Nat → Nat
  | _, 0 => buf
  | j, k + 1 => fillTriples frame (store3 frame buf j) (j + 3) k

/-- The byte the pattern writes at offset o from the start of a triple. -/
def patByte (frame : Bool) (o : Nat) : Nat :=
  if o = 0 then (if frame then 0xFF else 0x00)
  else if o = 1 then (if frame then 0x00 else 0xFF)
  else 0x00

/-- The outer loop over the N blocks.  The iteration count of the inner
loop is contentSize/3; both content sizes are divisible by three, so the
loop covers the content region exactly. -/
def fillTest (N : Nat) (frame : Bool) (bufs : Nat → Nat → Nat) : Nat → Nat → Nat :=
  fun i =>
    if i < N then
      fillTriples frame (bufs i) DATA_BLOCK_HEADER_SIZE (contentSize N i / 3)
    else bufs i

/-! ## The buffer-preparation phase of a cycle (part_007 lines 296-314)

If a framebuffer was pending, the worker only calls
gm12u320_fb_mark_dirty(fb, 0, GM12U320_USER_WIDTH, 0, GM12U320_HEIGHT)
on it; the data_buf blocks are not written at all and
gm12u320_32bpp_to_24bpp_packed is not called.  If none was pending, the
test pattern is written. -/

def prepareStep (N : Nat) (W H : Int) (st : PendState) (taken : Option Nat)
    (frame : Bool) (bufs : Nat → Nat → Nat) : PendState × (Nat → Nat → Nat) :=
  match taken with
  | some f => ((gm12u320_fb_mark_dirty st f ⟨0, W, 0, H⟩).1, bufs)
  | none => (st, fillTest N frame bufs)

/-! ## The capture distribution loop of part_008 (lines 406-419)

When screen capture succeeded, capture_size bytes are distributed over
the content regions of the N blocks:

  data_offset = 0;
  for (i = 0; i < N; i++) {
    data_size = block_size - HEADER - FOOTER;
    if (data_offset < capture_size) {
      copy_size = min(data_size, capture_size - data_offset);
      memcpy(data_buf[i] + HEADER, capture_buffer + data_offset, copy_size);
      data_offset += copy_size;
    }
  }
-/

def captureBlocks (N : Nat) (cap : Nat → Nat) (capSize : Nat)
    (bufs : Nat → Nat → Nat) : Nat → (Nat → Nat → Nat) × Nat
  | 0 => (bufs, 0)
  | t + 1 =>
    let r := captureBlocks N cap capSize bufs t
    let ds := contentSize N t
    if r.2 < capSize then
      let cs := min ds (capSize - r.2)
      (fun b => if b = t then memcpyRegion (r.1 t) DATA_BLOCK_HEADER_SIZE cap r.2 cs
                else r.1 b,
       r.2 + cs)
    else r

/-! ## Fill operations across cycles (for the header/footer invariant) -/

/-- The two operations that write frame content into the data_buf blocks
after allocation: the test-pattern fill of part_007 and the capture copy
of part_008. -/
inductive FillOp where
  | test (frame : Bool)
  | capture (cap : Nat → Nat) (capSize : Nat)

def applyFill (N : Nat) (bufs : Nat → Nat → Nat) : FillOp → Nat → Nat → Nat
  | .test f => fillTest N f bufs
  | .capture cap s => (captureBlocks N cap s bufs N).1

def applyFills (N : Nat) (ops : List FillOp) (bufs : Nat → Nat → Nat) :
    Nat → Nat → Nat :=
  ops.foldl (applyFill N) bufs

/-- Block i still carries its protocol-constant header and footer bytes:
the header template appropriate to its position at offsets below
DATA_BLOCK_HEADER_SIZE, and the footer template in the last
DATA_BLOCK_FOOTER_SIZE bytes. -/
def headerFooterOK (N i : Nat) (bufs : Nat → Nat → Nat) : Prop :=
  (∀ k, k < DATA_BLOCK_HEADER_SIZE →
    bufs i k = (if i = N - 1 then data_last_block_header k else data_block_header k)) ∧
  (∀ k, k < DATA_BLOCK_FOOTER_SIZE →
    bufs i (blockSize N i - DATA_BLOCK_FOOTER_SIZE + k) = data_block_footer k)

/-! ## Buffer lifecycle manager (gm12u320_gem.c)

A gem object is modelled by its import flag, its optional page list
(the pages pointer array; page identities are Nats) and its optional
kernel mapping address.  Each lifecycle operation additionally reports
the list of backing pages released by __free_page during the call and
whether the page-pointer array was kvfree-ed, so that leak claims can be
stated. -/

structure GemObj where
  importAttach : Bool
  pages : Option (List Nat)
  vmapping : Option Nat
deriving DecidableEq, Repr

def ENOMEM : Int := 12

def EAGAIN : Int := 11

def ERESTARTSYS : Int := 512

/-- The page-allocation loop of gm12u320_gem_get_pages
(gm12u320_gem.c lines 152-163), by remaining count r, next call index i
and pages obtained so far.  On a failed alloc_page the already obtained
pages are released in reverse order (`while (--i >= 0) __free_page`)
and the array is kvfree-ed. -/
def getPagesLoop (alloc : Nat → Option Nat) : Nat → Nat → List Nat →
    Option (List Nat) × List Nat
  | 0, _, acc => (some acc, [])
  | r + 1, i, acc =>
    match alloc i with
    | some p => getPagesLoop alloc r (i + 1) (acc ++ [p])
    | none => (none, acc.reverse)

/-- gm12u320_gem_get_pages.  Returns (ret, updated object, pages freed
during the call).  If the object already has pages the call is a no-op
returning 0. -/
def gm12u320_gem_get_pages (alloc : Nat → Option Nat) (count : Nat)
    (obj : GemObj) : Int × GemObj × List Nat :=
  match obj.pages with
  | some _ => (0, obj, [])
  | none =>
    match getPagesLoop alloc count 0 [] with
    | (some ps, _) => (0, { obj with pages := some ps }, [])
    | (none, freed) => (-ENOMEM, obj, freed)

/-- gm12u320_gem_vmap.  dmaRes is the outcome of dma_buf_vmap for an
imported object; vmapRes the outcome of vmap() over the page array.
On vmap() failure the function returns -ENOMEM directly: the pages
acquired by get_pages stay attached to the object and none is freed. -/
def gm12u320_gem_vmap (alloc : Nat → Option Nat) (count : Nat)
    (dmaRes : Option Nat) (vmapRes : List Nat → Option Nat)
    (obj : GemObj) : Int × GemObj × List Nat :=
  if obj.importAttach then
    match dmaRes with
    | none => (-ENOMEM, obj, [])
    | some a => (0, { obj with vmapping := some a }, [])
  else
    let r := gm12u320_gem_get_pages alloc count obj
    if r.1 ≠ 0 then r
    else
      match vmapRes (r.2.1.pages.getD []) with
      | none => (-ENOMEM, r.2.1, [])
      | some a => (0, { r.2.1 with vmapping := some a }, [])

/-- gm12u320_gem_put_pages (gm12u320_gem.c lines 170-180).  Both the
imported and the local branch execute only kvfree(obj->pages), freeing
the pointer array; no __free_page is called on any backing page, so the
freed-pages list is empty in both branches. -/
def gm12u320_gem_put_pages (obj : GemObj) : GemObj × List Nat :=
  if obj.importAttach then
    ({ obj with pages := none }, [])
  else
    ({ obj with pages := none }, [])

/-- gm12u320_gem_vunmap (lines 220-233): for an imported object only
dma_buf_vunmap (detach of the external mapping); otherwise vunmap() of
the kernel mapping followed by put_pages. -/
def gm12u320_gem_vunmap (obj : GemObj) : GemObj × List Nat :=
  if obj.importAttach then
    ({ obj with vmapping := none }, [])
  else
    let o1 : GemObj := { obj with vmapping := none }
    gm12u320_gem_put_pages o1

/-- Result of gm12u320_gem_free_object: final object, backing pages
freed during the call, and whether drm_prime_gem_destroy detached the
external import. -/
structure FreeResult where
  obj : GemObj
  freedPages : List Nat
  detachedImport : Bool
deriving DecidableEq, Repr

/-- gm12u320_gem_free_object (lines 235-250). -/
def gm12u320_gem_free_object (obj : GemObj) : FreeResult :=
  let s1 := if obj.vmapping.isSome then gm12u320_gem_vunmap obj else (obj, [])
  let detach := s1.1.importAttach
  let s2 := if s1.1.pages.isSome then gm12u320_gem_put_pages s1.1 else (s1.1, [])
  { obj := s2.1, freedPages := s1.2 ++ s2.2, detachedImport := detach }

/-! ## Page-fault service (gm12u320_gem_fault, gm12u320_gem.c lines 102-127) -/

inductive VmFaultRes where
  | nopage
  | oom
  | sigbus
deriving DecidableEq, Repr

def PAGE_SHIFT : Nat := 12

/-- gm12u320_gem_fault.  pages is obj->pages (none when the array was
never allocated); vmStart and address locate the fault;
vmInsert gives the return value of vm_insert_page on the resolved page.
Returns the fault outcome and the page that was passed to
vm_insert_page, if any. -/
def gm12u320_gem_fault (pages : Option (Nat → Nat)) (vmStart address : Nat)
    (vmInsert : Nat → Int) : VmFaultRes × Option Nat :=
  let pageOffset := (address - vmStart) >>> PAGE_SHIFT
  match pages with
  | none => (.sigbus, none)
  | some pg =>
    let page := pg pageOffset
    let ret := vmInsert page
    if ret = -EAGAIN ∨ ret = 0 ∨ ret = -ERESTARTSYS then (.nopage, some page)
    else if ret = -ENOMEM then (.oom, some page)
    else (.sigbus, some page)

/-! # Claim theorems -/

/-- C8: the claim states that every mark_dirty call that records a new
pending update signals the worker wait queue.  In the code the local
flag `wakeup` is initialized to false and never set, so wake_up is dead
code: no call of gm12u320_fb_mark_dirty ever signals the wait queue and
the worker resumes only when its idle timeout expires. -/
theorem mark_dirty_never_wakes (st : PendState) (fb : Nat) (r : Region) :
    (gm12u320_fb_mark_dirty st fb r).2 = false := rfl

/-- C3: gm12u320_fb_mark_dirty keeps at most one pending buffer: the
result always holds exactly the given buffer; with no pending update the
pending region becomes the new region; with the same buffer pending the
pending region becomes the component-wise bounding box; with a different
buffer pending the old entry is discarded and replaced. -/
theorem mark_dirty_merge_spec (st : PendState) (fb : Nat) (r : Region) :
    ((gm12u320_fb_mark_dirty st fb r).1).fb = some fb ∧
    (st.fb = none → ((gm12u320_fb_mark_dirty st fb r).1).region = r) ∧
    (st.fb = some fb → ((gm12u320_fb_mark_dirty st fb r).1).region = bbox st.region r) ∧
    (∀ g, st.fb = some g → g ≠ fb → ((gm12u320_fb_mark_dirty st fb r).1).region = r) := by
  unfold gm12u320_fb_mark_dirty
  by_cases h : st.fb = some fb
  · refine ⟨by simp [h], by simp [h], by simp [h], ?_⟩
    intro g hg hne
    rw [h] at hg
    exact absurd (Option.some_injective _ hg) (Ne.symm hne)
  · exact ⟨by simp [h], by simp [h], fun hfb => absurd hfb h, fun g hg hne => by simp [h]⟩

/-- C3 witness: the two-call scenario of the specification.  Marking
buffer 1 with region (0,10,0,10) into an empty slot and then with
(5,20,5,20) leaves the merged pending region (0,20,0,20). -/
theorem mark_dirty_merge_spec_wit :
    ((gm12u320_fb_mark_dirty
        ((gm12u320_fb_mark_dirty ⟨none, ⟨0, 0, 0, 0⟩⟩ 1 ⟨0, 10, 0, 10⟩).1)
        1 ⟨5, 20, 5, 20⟩).1).region = ⟨0, 20, 0, 20⟩ := by
  have h2 := mark_dirty_merge_spec
    ((gm12u320_fb_mark_dirty ⟨none, ⟨0, 0, 0, 0⟩⟩ 1 ⟨0, 10, 0, 10⟩).1) 1 ⟨5, 20, 5, 20⟩
  have e := h2.2.2.1 (by decide)
  rw [e]
  decide

/-- C5: the claim states that releasing a locally allocated buffer frees
every individually allocated backing page.  In the code
gm12u320_gem_put_pages only kvfrees the page-pointer array in both
branches and never calls __free_page, so releasing a local object
holding page 7 frees no backing page at all (the claim would require
freedPages = [7]); for an imported object, likewise no page is freed. -/
theorem free_object_leaks_pages :
    (gm12u320_gem_free_object ⟨false, some [7], some 1⟩).freedPages = [] ∧
    ¬ 7 ∈ (gm12u320_gem_free_object ⟨false, some [7], some 1⟩).freedPages ∧
    (gm12u320_gem_free_object ⟨false, some [7], some 1⟩).obj.pages = none ∧
    (gm12u320_gem_free_object ⟨false, some [7], some 1⟩).obj.vmapping = none ∧
    (gm12u320_gem_free_object ⟨true, some [7], some 1⟩).freedPages = [] ∧
    (gm12u320_gem_free_object ⟨true, some [7], some 1⟩).detachedImport = true := by
  decide

/-- C9 counterexample: with no pages array the fault handler returns
the access-violation outcome VM_FAULT_SIGBUS, not the out-of-memory
outcome the claim assigns to the no-page case. -/
theorem gem_fault_no_pages_cx :
    (gm12u320_gem_fault none 0 4096 (fun _ => 0)).1 = VmFaultRes.sigbus ∧
    ¬ (gm12u320_gem_fault none 0 4096 (fun _ => 0)).1 = VmFaultRes.oom := by
  decide

/-- C9 amended: the fault handler resolves the faulting offset to the
page at index (address - vmStart) >> PAGE_SHIFT and passes it to
vm_insert_page; it returns retry (VM_FAULT_NOPAGE) when insertion
returns 0, -EAGAIN or -ERESTARTSYS, out-of-memory (VM_FAULT_OOM) when
insertion returns -ENOMEM, and access violation (VM_FAULT_SIGBUS) when
there is no pages array or on any other insertion result. -/
theorem gem_fault_outcome_spec (pages : Option (Nat → Nat)) (vmStart address : Nat)
    (vmInsert : Nat → Int) :
    (pages = none →
      gm12u320_gem_fault pages vmStart address vmInsert = (.sigbus, none)) ∧
    (∀ pg, pages = some pg →
      (gm12u320_gem_fault pages vmStart address vmInsert).2 =
        some (pg ((address - vmStart) >>> PAGE_SHIFT)) ∧
      ((vmInsert (pg ((address - vmStart) >>> PAGE_SHIFT)) = 0 ∨
        vmInsert (pg ((address - vmStart) >>> PAGE_SHIFT)) = -EAGAIN ∨
        vmInsert (pg ((address - vmStart) >>> PAGE_SHIFT)) = -ERESTARTSYS) →
        (gm12u320_gem_fault pages vmStart address vmInsert).1 = .nopage) ∧
      (vmInsert (pg ((address - vmStart) >>> PAGE_SHIFT)) = -ENOMEM →
        (gm12u320_gem_fault pages vmStart address vmInsert).1 = .oom) ∧
      (vmInsert (pg ((address - vmStart) >>> PAGE_SHIFT)) ≠ 0 →
       vmInsert (pg ((address - vmStart) >>> PAGE_SHIFT)) ≠ -EAGAIN →
       vmInsert (pg ((address - vmStart) >>> PAGE_SHIFT)) ≠ -ERESTARTSYS →
       vmInsert (pg ((address - vmStart) >>> PAGE_SHIFT)) ≠ -ENOMEM →
        (gm12u320_gem_fault pages vmStart address vmInsert).1 = .sigbus)) := by
  constructor
  · intro h
    subst h
    rfl
  · intro pg hpg
    subst hpg
    refine ⟨?_, ?_, ?_, ?_⟩
    · simp only [gm12u320_gem_fault]
      split_ifs <;> rfl
    · intro h
      simp only [gm12u320_gem_fault]
      rw [if_pos (by tauto)]
    · intro h
      simp only [gm12u320_gem_fault]
      rw [if_neg (by simp only [EAGAIN, ERESTARTSYS, ENOMEM] at h ⊢; omega), if_pos h]
    · intro h0 h1 h2 h3
      simp only [gm12u320_gem_fault]
      rw [if_neg (by tauto), if_neg h3]

/-- C9 witness: a concrete fault with a pages array present and an
insertion that reports -ENOMEM yields the out-of-memory outcome. -/
theorem gem_fault_outcome_spec_wit :
    (gm12u320_gem_fault (some fun _ => 3) 0 4096 (fun _ => -ENOMEM)).1 =
      VmFaultRes.oom := by
  have h := gem_fault_outcome_spec (some fun _ => 3) 0 4096 (fun _ => -ENOMEM)
  exact (h.2 (fun _ => 3) rfl).2.2.1 rfl

/-- C7: the data command sent before block b is the cmd_data template
with exactly the little-endian 16-bit block size at offsets 8 and 9, the
descending tag 0xfc - 4*b at offset 20 and the block index with the
frame-parity bit in the high bit at offset 21 overwritten; every other
byte equals the template.  The bound b ≤ 62 holds for every real block
index and keeps the tag subtraction above zero. -/
theorem data_cmd_layout (N b : Nat) (p : Bool) (hb : b ≤ 62) :
    dataCmdBytes N p b 8 = blockSize N b % 256 ∧
    dataCmdBytes N p b 9 = blockSize N b / 256 ∧
    dataCmdBytes N p b 20 = 0xfc - 4 * b ∧
    dataCmdBytes N p b 21 = b ||| (if p then 128 else 0) ∧
    (∀ k, k ≠ 8 → k ≠ 9 → k ≠ 20 → k ≠ 21 → dataCmdBytes N p b k = cmd_data k) := by
  refine ⟨?_, ?_, ?_, ?_, ?_⟩
  · simp only [dataCmdBytes, mkDataCmd, store]
    norm_num
  · simp only [dataCmdBytes, mkDataCmd, store]
    norm_num
    by_cases hlast : b = N - 1 <;> simp [blockSize, hlast] <;> decide
  · simp only [dataCmdBytes, mkDataCmd, store, byteOfInt]
    norm_num
    omega
  · simp only [dataCmdBytes, mkDataCmd, store]
    norm_num
    cases p
    · simp [Nat.or_zero]
      omega
    · simp only [if_true]
      have h1 : b < 2 ^ 8 := by omega
      have h2 : (128 : Nat) < 2 ^ 8 := by norm_num
      have h3 := Nat.bitwise_lt (f := or) h1 h2
      simpa [Nat.lor] using h3
  · intro k h8 h9 h20 h21
    simp [dataCmdBytes, mkDataCmd, store, h8, h9, h20, h21]

/-- C7 witness: block 2 with parity set, at offsets 20, 21 and 0. -/
theorem data_cmd_layout_wit :
    dataCmdBytes 20 true 2 20 = 244 ∧
    dataCmdBytes 20 true 2 21 = 130 ∧
    dataCmdBytes 20 true 2 0 = 0x55 := by
  have h := data_cmd_layout 20 2 true (by decide)
  exact ⟨h.2.2.1.trans (by decide), (h.2.2.2.1).trans (by decide),
    (h.2.2.2.2 0 (by decide) (by decide) (by decide) (by decide)).trans (by decide)⟩

/-! ## Lemmas for the page-allocation loop -/

/-- List bookkeeping: absorbing the freshly allocated page into the
range expression. -/
theorem accRange (pid : Nat → Nat) (acc : List Nat) (i t : Nat) :
    acc ++ [pid i] ++ (List.range t).map (fun j => pid (i + 1 + j)) =
    acc ++ (List.range (t + 1)).map fun j => pid (i + j) := by
  rw [List.append_assoc]
  congr 1
  rw [List.range_succ_eq_map]
  simp only [List.map_cons, List.map_map, Nat.add_zero, List.singleton_append]
  congr 1
  apply List.map_congr_left
  intro a _
  simp only [Function.comp_apply]
  congr 1
  omega

/-- If every alloc_page call succeeds, the loop returns all pages in
order and frees nothing. -/
theorem getPagesLoop_ok (alloc : Nat → Option Nat) (pid : Nat → Nat) :
    ∀ (r i : Nat) (acc : List Nat),
      (∀ j, j < r → alloc (i + j) = some (pid (i + j))) →
      getPagesLoop alloc r i acc =
        (some (acc ++ (List.range r).map fun j => pid (i + j)), []) := by
  intro r
  induction r with
  | zero => intro i acc _; simp [getPagesLoop]
  | succ r ih =>
    intro i acc h
    have h0 : alloc i = some (pid i) := by simpa using h 0 (Nat.succ_pos r)
    simp only [getPagesLoop, h0]
    rw [ih (i + 1) (acc ++ [pid i]) (fun j hj => by
      have hh := h (j + 1) (by omega)
      have e : i + (j + 1) = i + 1 + j := by omega
      rw [e] at hh
      exact hh)]
    rw [accRange]

/-- If the t-th alloc_page call fails (after t successes), the loop
releases exactly the t pages already obtained, in reverse order. -/
theorem getPagesLoop_fail (alloc : Nat → Option Nat) (pid : Nat → Nat) :
    ∀ (t r i : Nat) (acc : List Nat), t < r →
      (∀ j, j < t → alloc (i + j) = some (pid (i + j))) →
      alloc (i + t) = none →
      getPagesLoop alloc r i acc =
        (none, (acc ++ (List.range t).map fun j => pid (i + j)).reverse) := by
  intro t
  induction t with
  | zero =>
    intro r i acc hlt _ hn
    obtain ⟨s, rfl⟩ : ∃ s, r = s + 1 := ⟨r - 1, by omega⟩
    have hn0 : alloc i = none := by simpa using hn
    simp [getPagesLoop, hn0]
  | succ t ih =>
    intro r i acc hlt h hn
    obtain ⟨s, rfl⟩ : ∃ s, r = s + 1 := ⟨r - 1, by omega⟩
    have h0 : alloc i = some (pid i) := by simpa using h 0 (Nat.succ_pos t)
    simp only [getPagesLoop, h0]
    have hn2 : alloc (i + 1 + t) = none := by
      have e : i + (t + 1) = i + 1 + t := by omega
      rw [e] at hn
      exact hn
    rw [ih s (i + 1) (acc ++ [pid i]) (by omega) (fun j hj => by
      have hh := h (j + 1) (by omega)
      have e : i + (j + 1) = i + 1 + j := by omega
      rw [e] at hh
      exact hh) hn2]
    rw [accRange]

/-- C6 amended: for a local buffer with no pages yet, a failure of the
k-th alloc_page call releases exactly the k pages already acquired
(in reverse order) before -ENOMEM is returned; but when every page is
obtained and vmap() then fails, -ENOMEM is returned with no page
released at all: the acquired pages remain attached to the object. -/
theorem alloc_cleanup_spec (alloc : Nat → Option Nat) (pid : Nat → Nat)
    (count k : Nat) (obj : GemObj) (dmaRes : Option Nat)
    (vmapRes : List Nat → Option Nat)
    (hobj : obj.importAttach = false) (hpages : obj.pages = none) :
    ((∀ j, j < k → alloc j = some (pid j)) → alloc k = none → k < count →
      gm12u320_gem_get_pages alloc count obj =
        (-ENOMEM, obj, ((List.range k).map pid).reverse)) ∧
    ((∀ j, j < count → alloc j = some (pid j)) →
      vmapRes ((List.range count).map pid) = none →
      gm12u320_gem_vmap alloc count dmaRes vmapRes obj =
        (-ENOMEM, { obj with pages := some ((List.range count).map pid) }, [])) := by
  constructor
  · intro hsome hnone hk
    simp only [gm12u320_gem_get_pages, hpages]
    rw [getPagesLoop_fail alloc pid k count 0 [] hk
      (fun j hj => by simpa using hsome j hj) (by simpa using hnone)]
    simp
  · intro hsome hvm
    simp only [gm12u320_gem_vmap, hobj, if_false, Bool.false_eq_true]
    simp only [gm12u320_gem_get_pages, hpages]
    rw [getPagesLoop_ok alloc pid count 0 [] (fun j hj => by simpa using hsome j hj)]
    simp only [List.nil_append]
    have e : (List.range count).map (fun j => pid (0 + j)) = (List.range count).map pid := by
      apply List.map_congr_left
      intro a _
      simp
    rw [e]
    simp [hvm, hobj]

/-- C6 witness: three pages requested, the third alloc_page call fails;
the two pages already obtained (ids 10 and 11) are released in reverse
order before -ENOMEM is returned. -/
theorem alloc_cleanup_spec_wit :
    gm12u320_gem_get_pages (fun i => if i < 2 then some (i + 10) else none) 3
      ⟨false, none, none⟩ = (-ENOMEM, ⟨false, none, none⟩, [11, 10]) := by
  have h := alloc_cleanup_spec (fun i => if i < 2 then some (i + 10) else none)
    (fun i => i + 10) 3 2 ⟨false, none, none⟩ none (fun _ => none) rfl rfl
  exact (h.1 (by decide) (by decide) (by decide)).trans (by decide)

/-- C6 counterexample: allocate with one page and a failing vmap()
returns the error without releasing the acquired page 100: the freed
list is empty and the page stays attached, while the claim requires all
pages acquired for the call to be released before the error return. -/
theorem vmap_failure_no_release_cx :
    gm12u320_gem_vmap (fun i => some (i + 100)) 1 none (fun _ => none)
        ⟨false, none, none⟩ =
      (-ENOMEM, ⟨false, some [100], none⟩, []) ∧
    ¬ 100 ∈ (gm12u320_gem_vmap (fun i => some (i + 100)) 1 none (fun _ => none)
        ⟨false, none, none⟩).2.2 := by
  decide

/-! ## Lemmas about the transfer sequence -/

/-- The cycle succeeds exactly when every transfer in program order
returns status 0 with the expected length. -/
theorem sendAll_ok_iff (N : Nat) (T : Nat → Int × Nat) :
    ∀ (ms : List Msg) (c : Nat),
      (sendAll N T ms c).2.1 = true ↔
        ∀ i (h : i < ms.length), resOk N (T (c + i)) (ms.get ⟨i, h⟩) = true := by
  intro ms
  induction ms with
  | nil => intro c; simp [sendAll]
  | cons m tl ih =>
    intro c
    by_cases h0 : resOk N (T c) m = true
    · simp only [sendAll, h0, if_true]
      rw [ih (c + 1)]
      constructor
      · intro htl i hi
        match i, hi with
        | 0, _ => simpa using h0
        | i + 1, hi =>
          have hh := htl i (by simpa using hi)
          have e : c + 1 + i = c + (i + 1) := by omega
          rw [e] at hh
          simpa using hh
      · intro hall i hi
        have hh := hall (i + 1) (by simpa using hi)
        have e : c + (i + 1) = c + 1 + i := by omega
        rw [e] at hh
        simpa using hh
    · have hs : (sendAll N T (m :: tl) c).2.1 = false := by simp [sendAll, h0]
      rw [hs]
      simp only [Bool.false_eq_true, false_iff]
      intro hall
      exact h0 (by simpa using hall 0 (by simp))

/-- On success the trace is the whole sequence and the counter advanced
by its length. -/
theorem sendAll_ok_out (N : Nat) (T : Nat → Int × Nat) :
    ∀ (ms : List Msg) (c : Nat), (sendAll N T ms c).2.1 = true →
      (sendAll N T ms c).1 = ms ∧ (sendAll N T ms c).2.2 = c + ms.length := by
  intro ms
  induction ms with
  | nil => intro c _; simp [sendAll]
  | cons m tl ih =>
    intro c h
    by_cases h0 : resOk N (T c) m = true
    · have htl : (sendAll N T tl (c + 1)).2.1 = true := by
        simpa [sendAll, h0] using h
      have := ih (c + 1) htl
      simp only [sendAll, h0, if_true]
      refine ⟨by rw [this.1], ?_⟩
      rw [this.2]
      simp [List.length_cons]
      omega
    · exfalso
      simp [sendAll, h0] at h

/-- On failure the trace is the initial segment of the sequence up to
and including the failing transfer. -/
theorem sendAll_fail_out (N : Nat) (T : Nat → Int × Nat) :
    ∀ (ms : List Msg) (c : Nat), (sendAll N T ms c).2.1 = false →
      ∃ j, j < ms.length ∧ (sendAll N T ms c).1 = ms.take (j + 1) ∧
        (sendAll N T ms c).2.2 = c + j + 1 := by
  intro ms
  induction ms with
  | nil => intro c h; simp [sendAll] at h
  | cons m tl ih =>
    intro c h
    by_cases h0 : resOk N (T c) m = true
    · have htl : (sendAll N T tl (c + 1)).2.1 = false := by
        simpa [sendAll, h0] using h
      obtain ⟨j, hj, htr, hcnt⟩ := ih (c + 1) htl
      refine ⟨j + 1, by simpa using hj, ?_, ?_⟩
      · simp only [sendAll, h0, if_true, List.take_succ_cons]
        rw [htr]
      · simp only [sendAll, h0, if_true]
        rw [hcnt]
        omega
    · exact ⟨0, by simp, by simp [sendAll, h0], by simp [sendAll, h0]⟩

/-- A nonempty transfer sequence always produces a nonempty trace. -/
theorem sendAll_ne_nil (N : Nat) (T : Nat → Int × Nat) (ms : List Msg) (c : Nat)
    (h : ms ≠ []) : (sendAll N T ms c).1 ≠ [] := by
  match ms with
  | m :: tl =>
    by_cases h0 : resOk N (T c) m = true <;> simp [sendAll, h0]

/-- The draw command is not among the per-block transfers. -/
theorem drawCmd_not_in_blockMsgs (N : Nat) : Msg.drawCmd ∉ blockMsgs N := by
  simp [blockMsgs, List.mem_flatMap]

/-- If the sequence is the block transfers followed by the draw pair and
the run fails with a data-block transfer as its last attempted message,
then the draw command was never attempted. -/
theorem noDrawAfterFail (N : Nat) (T : Nat → Int × Nat) :
    ∀ (l : List Msg) (c : Nat), Msg.drawCmd ∉ l →
      (sendAll N T (l ++ [Msg.drawCmd, Msg.drawStatus]) c).2.1 = false →
      ∀ b, (sendAll N T (l ++ [Msg.drawCmd, Msg.drawStatus]) c).1.getLast? =
            some (Msg.dataBlock b) →
      Msg.drawCmd ∉ (sendAll N T (l ++ [Msg.drawCmd, Msg.drawStatus]) c).1 := by
  intro l
  induction l with
  | nil =>
    intro c _ hfail b hlast
    by_cases h0 : resOk N (T c) Msg.drawCmd = true
    · by_cases h1 : resOk N (T (c + 1)) Msg.drawStatus = true
      · exfalso
        simp [sendAll, h0, h1] at hfail
      · exfalso
        simp [sendAll, h0, h1] at hlast
    · exfalso
      simp [sendAll, h0] at hlast
  | cons m tl ih =>
    intro c hmem hfail b hlast
    have hm : m ≠ Msg.drawCmd := by
      intro e
      exact hmem (by rw [e]; exact List.mem_cons_self _ _)
    by_cases h0 : resOk N (T c) m = true
    · have hne : (sendAll N T (tl ++ [Msg.drawCmd, Msg.drawStatus]) (c + 1)).1 ≠ [] := by
        apply sendAll_ne_nil
        cases tl <;> simp
      obtain ⟨a, tr0, htr⟩ := List.exists_cons_of_ne_nil hne
      have hfail2 : (sendAll N T (tl ++ [Msg.drawCmd, Msg.drawStatus]) (c + 1)).2.1 = false := by
        simpa [sendAll, h0] using hfail
      have hlast2 : (sendAll N T (tl ++ [Msg.drawCmd, Msg.drawStatus]) (c + 1)).1.getLast? =
          some (Msg.dataBlock b) := by
        have hx : (sendAll N T ((m :: tl) ++ [Msg.drawCmd, Msg.drawStatus]) c).1 =
            m :: (sendAll N T (tl ++ [Msg.drawCmd, Msg.drawStatus]) (c + 1)).1 := by
          simp [sendAll, h0]
        rw [hx, htr, List.getLast?_cons_cons] at hlast
        rw [htr]
        exact hlast
      have hrec := ih (c + 1) (fun hx => hmem (List.mem_cons_of_mem m hx)) hfail2 b hlast2
      have hx : (sendAll N T ((m :: tl) ++ [Msg.drawCmd, Msg.drawStatus]) c).1 =
          m :: (sendAll N T (tl ++ [Msg.drawCmd, Msg.drawStatus]) (c + 1)).1 := by
        simp [sendAll, h0]
      rw [hx]
      intro hin
      rcases List.mem_cons.mp hin with he | hin2
      · exact hm he.symm
      · exact hrec hin2
    · have hx : (sendAll N T ((m :: tl) ++ [Msg.drawCmd, Msg.drawStatus]) c).1 = [m] := by
        simp [sendAll, h0]
      rw [hx] at hlast ⊢
      simp at hlast
      rw [hlast]
      simp

/-- C2: the parity bit `frame` flips exactly once after a fully
successful cycle (success being equivalent to every transfer of the
cycle returning status 0 with the exact expected length) and stays
unchanged after any aborted cycle; and when the cycle aborts with a
data-block transfer as its last attempted message, the draw command was
never sent. -/
theorem cycle_parity_spec (N : Nat) (T : Nat → Int × Nat) (c : Nat) (p : Bool) :
    ((cycleStep N T c p).ok = true → (cycleStep N T c p).parity = !p) ∧
    ((cycleStep N T c p).ok = false → (cycleStep N T c p).parity = p) ∧
    ((cycleStep N T c p).ok = true ↔
      ∀ i (h : i < (cycleMsgs N).length),
        resOk N (T (c + i)) ((cycleMsgs N).get ⟨i, h⟩) = true) ∧
    (∀ b, (cycleStep N T c p).ok = false →
      (cycleStep N T c p).trace.getLast? = some (Msg.dataBlock b) →
      Msg.drawCmd ∉ (cycleStep N T c p).trace) := by
  refine ⟨?_, ?_, ?_, ?_⟩
  · intro h
    simp only [cycleStep, runCycle] at h ⊢
    rw [if_pos h]
  · intro h
    simp only [cycleStep, runCycle] at h ⊢
    rw [if_neg (by rw [h]; exact Bool.false_ne_true)]
  · exact sendAll_ok_iff N T (cycleMsgs N) c
  · intro b hf hl
    exact noDrawAfterFail N T (blockMsgs N) c (drawCmd_not_in_blockMsgs N) hf b hl

/-- C2 witness: four blocks, the transport fails on the data send of the
third block (transfer index 7): parity stays false and the draw command
is absent from the trace. -/
theorem cycle_parity_spec_wit :
    (cycleStep 4 (fun i => if i = 7 then ((1 : Int), 0) else goodT 4 i) 0 false).parity
        = false ∧
    Msg.drawCmd ∉
      (cycleStep 4 (fun i => if i = 7 then ((1 : Int), 0) else goodT 4 i) 0 false).trace := by
  have h := cycle_parity_spec 4 (fun i => if i = 7 then ((1 : Int), 0) else goodT 4 i) 0 false
  exact ⟨h.2.1 (by decide), h.2.2.2 2 (by decide) (by decide)⟩

/-! ## Lemmas about the worker loop -/

/-- On success the transfer run can be reassembled componentwise. -/
theorem sendAll_ok_of (N : Nat) (T : Nat → Int × Nat) (ms : List Msg) (c : Nat)
    (h : ∀ i (hi : i < ms.length), resOk N (T (c + i)) (ms.get ⟨i, hi⟩) = true) :
    sendAll N T ms c = (ms, true, c + ms.length) := by
  have hok := (sendAll_ok_iff N T ms c).mpr h
  have hout := sendAll_ok_out N T ms c hok
  have hsplit : sendAll N T ms c =
      ((sendAll N T ms c).1, (sendAll N T ms c).2.1, (sendAll N T ms c).2.2) := rfl
  rw [hsplit, hout.1, hok, hout.2]

/-- Against the always-correct oracle a cycle starting at a counter that
is a multiple of the cycle length succeeds completely. -/
theorem goodT_cycle (N q : Nat) :
    runCycle N (goodT N) (cycleLen N * q) =
      (cycleMsgs N, true, cycleLen N * q + cycleLen N) := by
  apply sendAll_ok_of
  intro i hi
  simp only [goodT, resOk]
  have hmod : (cycleLen N * q + i) % cycleLen N = i := by
    rw [Nat.mul_add_mod]
    exact Nat.mod_eq_of_lt hi
  rw [hmod]
  have hgd : (cycleMsgs N).getD i Msg.drawCmd = (cycleMsgs N).get ⟨i, hi⟩ := by
    simp [List.getD_eq_getElem?_getD, List.getElem?_eq_getElem hi, List.get_eq_getElem]
  rw [hgd]
  simp

/-- A cycle entry with a failure is never followed by another entry:
the worker returns from the err label instead of looping. -/
theorem worker_fail_last (N : Nat) (T : Nat → Int × Nat) (rf : Nat → Bool) :
    ∀ (fuel k c : Nat) (p : Bool) (l₁ : List CEntry) (e : CEntry) (l₂ : List CEntry),
      (workerLoop N T rf fuel k c p).1 = l₁ ++ e :: l₂ → e.ok = false → l₂ = [] := by
  intro fuel
  induction fuel with
  | zero =>
    intro k c p l₁ e l₂ h _
    simp [workerLoop] at h
  | succ fuel ih =>
    intro k c p l₁ e l₂ h he
    by_cases hrf : rf k = true
    · simp only [workerLoop, hrf, if_true] at h
      by_cases hok : (cycleStep N T c p).ok = true
      · rw [if_pos hok] at h
        cases l₁ with
        | nil =>
          simp only [List.nil_append, List.cons.injEq] at h
          rw [← h.1] at he
          simp at he
        | cons x l₁ =>
          simp only [List.cons_append, List.cons.injEq] at h
          exact ih (k + 1) (cycleStep N T c p).cnt (cycleStep N T c p).parity l₁ e l₂ h.2 he
      · rw [if_neg hok] at h
        cases l₁ with
        | nil =>
          simp only [List.nil_append, List.cons.injEq] at h
          exact h.2.symm
        | cons x l₁ =>
          simp only [List.cons_append, List.cons.injEq] at h
          exact absurd h.2 (by simp)
    · simp only [workerLoop, hrf] at h
      simp at h

/-- While the run flag stays set and every transfer succeeds, the worker
keeps executing cycles (one per fuel unit) and never stops by itself. -/
theorem worker_goodT_len (N : Nat) (rf : Nat → Bool) (hrf : ∀ j, rf j = true) :
    ∀ (fuel k q : Nat) (p : Bool),
      (workerLoop N (goodT N) rf fuel k (cycleLen N * q) p).1.length = fuel := by
  intro fuel
  induction fuel with
  | zero => intro k q p; rfl
  | succ fuel ih =>
    intro k q p
    have hcyc : cycleStep N (goodT N) (cycleLen N * q) p =
        { trace := cycleMsgs N, ok := true, cnt := cycleLen N * (q + 1), parity := !p } := by
      simp only [cycleStep, goodT_cycle N q]
      simp [Nat.mul_succ]
    simp only [workerLoop, hrf k, if_true, hcyc, List.length_cons]
    rw [ih (k + 1) (q + 1) (!p)]

/-- C1 amended: a transport failure or length mismatch in any cycle
terminates the whole worker: the failing cycle is always the last entry
of the run record (conjunct one); clearing the run flag stops the loop
before the next cycle (conjunct two); and with the flag held true and a
fully successful transport the worker loops indefinitely, one cycle per
fuel unit (conjunct three).  Errors are therefore not local to a cycle:
the worker never loops back after a failed frame. -/
theorem worker_failure_terminates_loop (N : Nat) (T : Nat → Int × Nat)
    (rf : Nat → Bool) (fuel k c : Nat) (p : Bool) :
    (∀ (l₁ : List CEntry) (e : CEntry) (l₂ : List CEntry),
      (workerLoop N T rf fuel k c p).1 = l₁ ++ e :: l₂ → e.ok = false → l₂ = []) ∧
    (rf k = false → (workerLoop N T rf fuel k c p).1 = []) ∧
    (∀ q, (∀ j, rf j = true) →
      (workerLoop N (goodT N) rf fuel k (cycleLen N * q) p).1.length = fuel) := by
  refine ⟨fun l₁ e l₂ h he => worker_fail_last N T rf fuel k c p l₁ e l₂ h he, ?_, ?_⟩
  · intro h
    cases fuel with
    | zero => rfl
    | succ fuel => simp [workerLoop, h]
  · intro q hrf
    exact worker_goodT_len N rf hrf fuel k q p

/-- C1 witness: one block, always-correct transport, run flag held
true: with fuel two the worker executes exactly two cycles. -/
theorem worker_failure_terminates_loop_wit :
    (workerLoop 1 (goodT 1) (fun _ => true) 2 0 (cycleLen 1 * 0) false).1.length = 2 := by
  have h := worker_failure_terminates_loop 1 (goodT 1) (fun _ => true) 2 0
    (cycleLen 1 * 0) false
  exact h.2.2 0 (fun _ => rfl)

/-- C1 counterexample: one block, a transport that always fails, and a
run flag that is never cleared.  The claim says the worker aborts only
the current cycle and loops back to attempt the next one, so with fuel
three at least two cycles would be attempted; the worker in fact
executes exactly one cycle and returns. -/
theorem worker_error_not_local_cx :
    ¬ 2 ≤ (workerLoop 1 (fun _ => ((1 : Int), 0)) (fun _ => true) 3 0 0 false).1.length := by
  decide

/-! ## The test-pattern fill, pointwise -/

/-- Closed form of the inner pattern loop: bytes in [j, j + 3k) carry
the pattern byte for their offset within the triple, all others are
untouched. -/
theorem fillTriples_apply (frame : Bool) :
    ∀ (k j : Nat) (buf : Nat → Nat) (m : Nat),
      fillTriples frame buf j k m =
        if j ≤ m ∧ m < j + 3 * k then patByte frame ((m - j) % 3) else buf m := by
  intro k
  induction k with
  | zero =>
    intro j buf m
    rw [fillTriples, if_neg (by omega)]
  | succ k ih =>
    intro j buf m
    simp only [fillTriples]
    rw [ih (j + 3) (store3 frame buf j) m]
    by_cases h1 : j + 3 ≤ m ∧ m < j + 3 + 3 * k
    · rw [if_pos h1, if_pos (by omega)]
      congr 1
      have e : m - j = (m - (j + 3)) + 3 := by omega
      rw [e, Nat.add_mod_right]
    · rw [if_neg h1]
      by_cases h2 : j ≤ m ∧ m < j + 3 * (k + 1)
      · rw [if_pos h2]
        have hm : m = j ∨ m = j + 1 ∨ m = j + 2 := by omega
        simp only [store3, store]
        rcases hm with h | h | h
        · rw [if_neg (by omega), if_neg (by omega), if_pos h]
          have e : (m - j) % 3 = 0 := by omega
          rw [e]
          cases frame <;> norm_num [patByte]
        · rw [if_neg (by omega), if_pos h]
          have e : (m - j) % 3 = 1 := by omega
          rw [e]
          cases frame <;> norm_num [patByte]
        · rw [if_pos h]
          have e : (m - j) % 3 = 2 := by omega
          rw [e]
          norm_num [patByte]
      · rw [if_neg h2]
        simp only [store3, store]
        rw [if_neg (by omega), if_neg (by omega), if_neg (by omega)]

/-- Both content sizes are divisible by the 3-byte pixel stride, so the
pattern loop covers the content region exactly. -/
theorem content_layout (N i : Nat) :
    3 * (contentSize N i / 3) = contentSize N i ∧
    DATA_BLOCK_HEADER_SIZE + contentSize N i + DATA_BLOCK_FOOTER_SIZE = blockSize N i := by
  by_cases hi : i = N - 1
  · unfold contentSize blockSize
    rw [if_pos hi]
    exact ⟨by decide, by decide⟩
  · unfold contentSize blockSize
    rw [if_neg hi]
    exact ⟨by decide, by decide⟩

/-- C4 amended: the worker atomically takes and clears the pending
(buffer, region) pair; but no pixel conversion takes place.  With a
buffer pending the worker only calls mark_dirty on it with the
full-screen region, leaving every data_buf byte untouched (so the
previous block contents are retransmitted, not a packed copy of the
framebuffer); with none pending the content region of every block is
overwritten with the parity-dependent test pattern (not a re-send of
the previous frame). -/
theorem prepare_no_conversion_spec (N : Nat) (W H : Int) (st : PendState)
    (frame : Bool) (bufs : Nat → Nat → Nat) :
    ((takePending st).1 = (st.fb, st.region) ∧ ((takePending st).2).fb = none) ∧
    (∀ f, (prepareStep N W H (takePending st).2 (some f) frame bufs).2 = bufs ∧
       (prepareStep N W H (takePending st).2 (some f) frame bufs).1 =
         { fb := some f, region := ⟨0, W, 0, H⟩ }) ∧
    (∀ i j, i < N → DATA_BLOCK_HEADER_SIZE ≤ j →
       j < DATA_BLOCK_HEADER_SIZE + contentSize N i →
       (prepareStep N W H (takePending st).2 none frame bufs).2 i j =
         patByte frame ((j - DATA_BLOCK_HEADER_SIZE) % 3)) ∧
    (∀ i j, ¬ (i < N ∧ DATA_BLOCK_HEADER_SIZE ≤ j ∧
         j < DATA_BLOCK_HEADER_SIZE + contentSize N i) →
       (prepareStep N W H (takePending st).2 none frame bufs).2 i j = bufs i j) := by
  refine ⟨⟨rfl, rfl⟩, ?_, ?_, ?_⟩
  · intro f
    refine ⟨rfl, ?_⟩
    simp [prepareStep, takePending, gm12u320_fb_mark_dirty]
  · intro i j hi hj1 hj2
    have hc := content_layout N i
    simp only [prepareStep, fillTest, if_pos hi]
    rw [fillTriples_apply]
    rw [if_pos ⟨hj1, by omega⟩]
  · intro i j hout
    by_cases hi : i < N
    · have hc := content_layout N i
      simp only [prepareStep, fillTest, if_pos hi]
      rw [fillTriples_apply]
      rw [if_neg (by omega)]
    · simp only [prepareStep, fillTest, if_neg hi]

/-- C4 witness: with nothing pending, block 0 of a single-block device
gets the pattern byte at the first content offset. -/
theorem prepare_no_conversion_spec_wit :
    (prepareStep 1 854 480 (takePending ⟨none, ⟨0, 0, 0, 0⟩⟩).2 none false
        (fun _ _ => 5)).2 0 84 = 0 := by
  have h := prepare_no_conversion_spec 1 854 480 ⟨none, ⟨0, 0, 0, 0⟩⟩ false (fun _ _ => 5)
  have e := h.2.2.1 0 84 (by decide) (by decide) (by decide)
  exact e.trans (by decide)

/-- C4 counterexample: a framebuffer is pending (buffer 1) and its
pixel content packs to byte 7 at the first position, yet after the
preparation phase the first content byte of block 0 is still the old
value 0: the pixel content was not converted/packed into the protocol
payload (gm12u320_32bpp_to_24bpp_packed is never invoked by the
worker). -/
theorem prepare_conversion_cx :
    (prepareStep 1 854 480 ⟨none, ⟨0, 0, 0, 0⟩⟩ (some 1) false (fun _ _ => 0)).2 0
        DATA_BLOCK_HEADER_SIZE = 0 ∧
    (gm12u320_32bpp_to_24bpp_packed [7, 7, 7, 9] 1).getD 0 0 = 7 ∧
    ¬ ((prepareStep 1 854 480 ⟨none, ⟨0, 0, 0, 0⟩⟩ (some 1) false (fun _ _ => 0)).2 0
        DATA_BLOCK_HEADER_SIZE =
      (gm12u320_32bpp_to_24bpp_packed [7, 7, 7, 9] 1).getD 0 0) := by
  decide

/-! ## Header/footer invariance of the data blocks -/

set_option maxRecDepth 20000 in
/-- Pointwise value of a freshly allocated block in its header. -/
theorem allocBlock_header (last : Bool) (k : Nat) (hk : k < DATA_BLOCK_HEADER_SIZE) :
    allocBlock last k =
      (if last then data_last_block_header k else data_block_header k) := by
  cases last
  · show memcpyRegion (memcpyRegion (fun _ => 0) 0 data_block_header 0 DATA_BLOCK_HEADER_SIZE)
        (DATA_BLOCK_SIZE - DATA_BLOCK_FOOTER_SIZE) data_block_footer 0 DATA_BLOCK_FOOTER_SIZE k
      = data_block_header k
    simp only [memcpyRegion, DATA_BLOCK_SIZE, DATA_BLOCK_HEADER_SIZE,
      DATA_BLOCK_FOOTER_SIZE, DATA_BLOCK_CONTENT_SIZE] at *
    rw [if_neg (by omega), if_pos (by omega)]
    congr 1
    omega
  · show memcpyRegion (memcpyRegion (fun _ => 0) 0 data_last_block_header 0 DATA_BLOCK_HEADER_SIZE)
        (DATA_LAST_BLOCK_SIZE - DATA_BLOCK_FOOTER_SIZE) data_block_footer 0 DATA_BLOCK_FOOTER_SIZE k
      = data_last_block_header k
    simp only [memcpyRegion, DATA_LAST_BLOCK_SIZE, DATA_BLOCK_HEADER_SIZE,
      DATA_BLOCK_FOOTER_SIZE, DATA_LAST_BLOCK_CONTENT_SIZE] at *
    rw [if_neg (by omega), if_pos (by omega)]
    congr 1
    omega

set_option maxRecDepth 4000 in
/-- Pointwise value of a freshly allocated block in its footer. -/
theorem allocBlock_footer (last : Bool) (k : Nat) (hk : k < DATA_BLOCK_FOOTER_SIZE) :
    allocBlock last
        ((if last then DATA_LAST_BLOCK_SIZE else DATA_BLOCK_SIZE)
          - DATA_BLOCK_FOOTER_SIZE + k) = data_block_footer k := by
  cases last
  · unfold allocBlock
    simp only [Bool.false_eq_true, if_false, memcpyRegion, DATA_BLOCK_SIZE,
      DATA_BLOCK_HEADER_SIZE, DATA_BLOCK_FOOTER_SIZE, DATA_BLOCK_CONTENT_SIZE] at *
    norm_num
    intro h
    exact absurd h (by omega)
  · unfold allocBlock
    simp only [if_true, memcpyRegion, DATA_LAST_BLOCK_SIZE,
      DATA_BLOCK_HEADER_SIZE, DATA_BLOCK_FOOTER_SIZE, DATA_LAST_BLOCK_CONTENT_SIZE] at *
    norm_num
    intro h
    exact absurd h (by omega)

/-- gm12u320_usb_alloc establishes the header and footer constants in
every block. -/
theorem headerFooterOK_alloc (N i : Nat) : headerFooterOK N i (gm12u320_usb_alloc N) := by
  constructor
  · intro k hk
    by_cases hi : i = N - 1
    · simp only [gm12u320_usb_alloc, if_pos hi]
      exact allocBlock_header true k hk
    · simp only [gm12u320_usb_alloc, if_neg hi]
      exact allocBlock_header false k hk
  · intro k hk
    by_cases hi : i = N - 1
    · simp only [gm12u320_usb_alloc, blockSize, if_pos hi]
      exact allocBlock_footer true k hk
    · simp only [gm12u320_usb_alloc, blockSize, if_neg hi]
      exact allocBlock_footer false k hk

/-- The test-pattern fill writes only the content region and keeps the
header and footer bytes. -/
theorem headerFooterOK_fillTest (N i : Nat) (frame : Bool) (bufs : Nat → Nat → Nat)
    (h : headerFooterOK N i bufs) : headerFooterOK N i (fillTest N frame bufs) := by
  by_cases hi : i < N
  · constructor
    · intro k hk
      have hc := content_layout N i
      simp only [fillTest, if_pos hi]
      rw [fillTriples_apply]
      rw [if_neg (by simp only [DATA_BLOCK_HEADER_SIZE] at *; omega)]
      exact h.1 k hk
    · intro k hk
      have hc := content_layout N i
      simp only [fillTest, if_pos hi]
      rw [fillTriples_apply]
      rw [if_neg (by
        simp only [DATA_BLOCK_HEADER_SIZE, DATA_BLOCK_FOOTER_SIZE] at *
        omega)]
      exact h.2 k hk
  · constructor
    · intro k hk
      simp only [fillTest, if_neg hi]
      exact h.1 k hk
    · intro k hk
      simp only [fillTest, if_neg hi]
      exact h.2 k hk

/-- The capture-distribution loop of part_008 writes only content
regions and keeps every header and footer. -/
theorem headerFooterOK_capture (N i : Nat) (cap : Nat → Nat) (capSize : Nat)
    (bufs : Nat → Nat → Nat) :
    ∀ t, headerFooterOK N i bufs →
      headerFooterOK N i (captureBlocks N cap capSize bufs t).1 := by
  intro t
  induction t with
  | zero => intro h; exact h
  | succ t ih =>
    intro h
    have hprev := ih h
    simp only [captureBlocks]
    by_cases hoff : (captureBlocks N cap capSize bufs t).2 < capSize
    · rw [if_pos hoff]
      constructor
      · intro k hk
        by_cases hit : i = t
        · subst hit
          dsimp only
          rw [if_pos rfl]
          simp only [memcpyRegion]
          rw [if_neg (by simp only [DATA_BLOCK_HEADER_SIZE] at hk ⊢; omega)]
          exact hprev.1 k hk
        · dsimp only
          rw [if_neg hit]
          exact hprev.1 k hk
      · intro k hk
        by_cases hit : i = t
        · subst hit
          dsimp only
          rw [if_pos rfl]
          simp only [memcpyRegion]
          have hcs := Nat.min_le_left (contentSize N i)
            (capSize - (captureBlocks N cap capSize bufs i).2)
          have hc := (content_layout N i).2
          rw [if_neg (by
            simp only [DATA_BLOCK_HEADER_SIZE, DATA_BLOCK_FOOTER_SIZE] at hk hc ⊢
            omega)]
          exact hprev.2 k hk
        · dsimp only
          rw [if_neg hit]
          exact hprev.2 k hk
    · rw [if_neg hoff]
      exact hprev

/-- Any sequence of frame-content fills keeps the invariant. -/
theorem headerFooterOK_applyFills (N i : Nat) :
    ∀ (ops : List FillOp) (bufs : Nat → Nat → Nat), headerFooterOK N i bufs →
      headerFooterOK N i (applyFills N ops bufs) := by
  intro ops
  induction ops with
  | nil => intro bufs h; exact h
  | cons op ops ih =>
    intro bufs h
    simp only [applyFills, List.foldl_cons]
    apply ih
    cases op with
    | test f => exact headerFooterOK_fillTest N i f bufs h
    | capture cap s => exact headerFooterOK_capture N i cap s bufs N h

/-- C10: after allocation and any sequence of content fills (test
pattern or capture copy), every transmitted block still starts with the
84 header bytes appropriate to its position and ends with the 20 footer
bytes; the content lengths 64512 and 4032 are both divisible by the
3-byte pixel stride, so the fill loops never reach the footer. -/
theorem block_header_footer_invariant (N : Nat) (ops : List FillOp) (i : Nat)
    (_hi : i < N) :
    (∀ k, k < DATA_BLOCK_HEADER_SIZE →
      applyFills N ops (gm12u320_usb_alloc N) i k =
        (if i = N - 1 then data_last_block_header k else data_block_header k)) ∧
    (∀ k, k < DATA_BLOCK_FOOTER_SIZE →
      applyFills N ops (gm12u320_usb_alloc N) i
          (blockSize N i - DATA_BLOCK_FOOTER_SIZE + k) = data_block_footer k) ∧
    DATA_BLOCK_CONTENT_SIZE % 3 = 0 ∧ DATA_LAST_BLOCK_CONTENT_SIZE % 3 = 0 := by
  have h := headerFooterOK_applyFills N i ops (gm12u320_usb_alloc N)
    (headerFooterOK_alloc N i)
  exact ⟨h.1, h.2, by decide, by decide⟩

/-- C10 witness: two blocks, one test-pattern cycle; block 0 keeps its
first header byte and its first footer byte. -/
theorem block_header_footer_invariant_wit :
    applyFills 2 [FillOp.test true] (gm12u320_usb_alloc 2) 0 0 = 0 ∧
    applyFills 2 [FillOp.test true] (gm12u320_usb_alloc 2) 0
      (blockSize 2 0 - DATA_BLOCK_FOOTER_SIZE + 0) = data_block_footer 0 := by
  have h := block_header_footer_invariant 2 [FillOp.test true] 0 (by decide)
  refine ⟨?_, h.2.1 0 (by decide)⟩
  have e := h.1 0 (by decide)
  rw [e]
  decide
